import Mathlib

/-!
Verification of the disc-golf-tracker core against its specification.

The definitions below are a shallow embedding of the repository's
JavaScript source:

* `js/statistics.js` — `Storage` (local store, pending-sync queue) and
  `Statistics` (per-hole / per-course aggregation);
* `js/sheets-api.js` — `SheetsAPI.processPendingSync` (queue drain);
* `js/app.js` — `App.validateScoreEntry`, `App.saveCurrentHoleScore`,
  `App.navigateHole`, `App.handleSaveHole`, `App.finishRound`;
* `js/config.js` — the `CONFIG` constants consumed by the above.

JavaScript dynamic values are modelled explicitly: a DOM text field is a
`RawField` (abstracting a string by its trimmed-emptiness, raw
truthiness and `parseInt` result), and a stored numeric cell is a `JVal`
(`null`, `NaN`, or an integer).
-/

set_option autoImplicit false

namespace DiscGolf

/-! ## Operation queue

`Storage.addPendingSync` / `Storage.getPendingSync` (js/statistics.js)
and `SheetsAPI.processPendingSync` (js/sheets-api.js).
-/

/-- The closed set of operation kinds dispatched by the `switch` in
`SheetsAPI.processPendingSync`; these are exactly the `type` tags that
`App` ever enqueues via `Storage.addPendingSync`. -/
inductive OpKind where
  | saveCourse
  | saveHoles
  | saveRound
  | updateRound
  | saveScores
  | updateCourseLastPlayed
  deriving DecidableEq, Repr

/-- An operation as handed to `Storage.addPendingSync`: a kind tag plus its
`data` payload (an entity snapshot, opaque to the queue). -/
structure OpData where
  kind : OpKind
  payload : String
  deriving DecidableEq, Repr

/-- A queued operation: `addPendingSync` spreads the operation and adds a
`timestamp` before appending it to the persisted queue. -/
structure PendingOp where
  kind : OpKind
  payload : String
  timestamp : String
  deriving DecidableEq, Repr

/-- Model of `Storage.addPendingSync`: append the operation, stamped with the current
time, at the tail of the pending queue. -/
def addPendingSync (queue : List PendingOp) (op : OpData) (now : String) :
    List PendingOp :=
  queue ++ [⟨op.kind, op.payload, now⟩]

/-- Remote Gateway behavior: whether the remote call made for the `i`-th
queued operation completes (`true`) or throws (`false`).  This abstracts the
`await this.saveCourse/saveHoles/.../updateCourseLastPlayed` call performed
for each operation inside the `try` of `SheetsAPI.processPendingSync`. -/
abbrev Gateway := Nat → PendingOp → Bool

/-- Result of one drain pass: the persisted queue afterwards (the `failed`
array written back by `Storage.set`), the returned boolean, and the trace of
Gateway attempts in the order they were made. -/
structure DrainResult where
  queue : List PendingOp
  success : Bool
  calls : List (Nat × PendingOp)
  deriving DecidableEq, Repr

/-- The `for` loop of `SheetsAPI.processPendingSync`: attempt the operation
at position `i`; on a thrown error push it onto `failed`.  Returns the
`failed` array and the trace of attempts. -/
def drainLoop (gw : Gateway) : Nat → List PendingOp →
    List PendingOp × List (Nat × PendingOp)
  | _, [] => ([], [])
  | i, op :: rest =>
      let r := drainLoop gw (i + 1) rest
      (if gw i op then r.1 else op :: r.1, (i, op) :: r.2)

/-- Model of `SheetsAPI.processPendingSync`: early-return `true` on an empty queue;
otherwise attempt every pending operation in order, write back exactly the
failed ones, and return whether none failed. -/
def processPendingSync (gw : Gateway) (pending : List PendingOp) : DrainResult :=
  if pending.isEmpty then ⟨pending, true, []⟩
  else
    let r := drainLoop gw 0 pending
    ⟨r.1, r.1.isEmpty, r.2⟩

theorem drainLoop_calls (gw : Gateway) (i : Nat) (l : List PendingOp) :
    (drainLoop gw i l).2 = l.enumFrom i := by
  induction l generalizing i with
  | nil => rfl
  | cons op rest ih => simp [drainLoop, List.enumFrom, ih]

theorem drainLoop_failed (gw : Gateway) (i : Nat) (l : List PendingOp) :
    (drainLoop gw i l).1
      = ((l.enumFrom i).filter fun p => !gw p.1 p.2).map Prod.snd := by
  induction l generalizing i with
  | nil => rfl
  | cons op rest ih =>
      by_cases h : gw i op = true <;>
        simp [drainLoop, List.enumFrom, List.filter, ih, h]

theorem processPendingSync_cons (gw : Gateway) (op : PendingOp)
    (rest : List PendingOp) :
    processPendingSync gw (op :: rest)
      = ⟨(drainLoop gw 0 (op :: rest)).1, (drainLoop gw 0 (op :: rest)).1.isEmpty,
         (drainLoop gw 0 (op :: rest)).2⟩ := rfl

/-- C1: one drain pass attempts each queued operation exactly once, in
enqueue order; the queue afterwards holds exactly the operations whose
Gateway call failed, in their original relative order; and the pass returns
`true` iff every operation succeeded. -/
theorem processPendingSync_spec (gw : Gateway) (pending : List PendingOp) :
    (processPendingSync gw pending).calls = pending.enum
  ∧ (processPendingSync gw pending).queue
      = (pending.enum.filter fun p => !gw p.1 p.2).map Prod.snd
  ∧ ((processPendingSync gw pending).success = true ↔
      ∀ p ∈ pending.enum, gw p.1 p.2 = true) := by
  cases pending with
  | nil => simp [processPendingSync]
  | cons op rest =>
      rw [processPendingSync_cons]
      refine ⟨drainLoop_calls gw 0 _, ?_, ?_⟩
      · rw [drainLoop_failed]
        rfl
      · rw [drainLoop_failed gw 0]
        show ((((op :: rest).enum.filter fun p => !gw p.1 p.2).map
            Prod.snd).isEmpty = true) ↔ _
        simp only [List.isEmpty_iff, List.map_eq_nil_iff, List.filter_eq_nil_iff]
        constructor
        · intro h p hp
          simpa using h p hp
        · intro h p hp
          simpa using h p hp

/-- Enqueue a batch of operations (with their timestamps) onto an initially
empty pending queue, via repeated `Storage.addPendingSync`. -/
def enqueueAll (items : List (OpData × String)) : List PendingOp :=
  items.foldl (fun q it => addPendingSync q it.1 it.2) []

theorem enqueueAll_aux (items : List (OpData × String)) (q : List PendingOp) :
    items.foldl (fun q it => addPendingSync q it.1 it.2) q
      = q ++ items.map (fun it => ⟨it.1.kind, it.1.payload, it.2⟩) := by
  induction items generalizing q with
  | nil => simp
  | cons it rest ih =>
      rw [List.foldl_cons, ih]
      simp [addPendingSync]

/-- C4: enqueueing `N` operations and draining against a Gateway whose calls
always succeed empties the pending queue, returns success, and performs
exactly `N` Gateway attempts, one per operation, in enqueue order. -/
theorem enqueue_drain_roundtrip (items : List (OpData × String)) :
    enqueueAll items
        = items.map (fun it => ⟨it.1.kind, it.1.payload, it.2⟩)
  ∧ (processPendingSync (fun _ _ => true) (enqueueAll items)).queue = []
  ∧ (processPendingSync (fun _ _ => true) (enqueueAll items)).success = true
  ∧ (processPendingSync (fun _ _ => true) (enqueueAll items)).calls
        = (enqueueAll items).enum
  ∧ (processPendingSync (fun _ _ => true) (enqueueAll items)).calls.length
        = items.length := by
  have henq : enqueueAll items
      = items.map (fun it => ⟨it.1.kind, it.1.payload, it.2⟩) :=
    enqueueAll_aux items []
  have hlen : (enqueueAll items).length = items.length := by
    rw [henq]; simp
  refine ⟨henq, ?_, ?_, ?_, ?_⟩
  · cases h : enqueueAll items with
    | nil => simp [processPendingSync]
    | cons op rest =>
        rw [processPendingSync_cons, drainLoop_failed]
        simp
  · cases h : enqueueAll items with
    | nil => simp [processPendingSync]
    | cons op rest =>
        rw [processPendingSync_cons, drainLoop_failed]
        simp
  · cases h : enqueueAll items with
    | nil => simp [processPendingSync]
    | cons op rest =>
        rw [processPendingSync_cons, drainLoop_calls]
        rfl
  · cases h : enqueueAll items with
    | nil =>
        have hit : items = [] := by
          cases items with
          | nil => rfl
          | cons it rest => simp [henq] at h
        simp [hit, processPendingSync]
    | cons op rest =>
        rw [processPendingSync_cons, drainLoop_calls]
        rw [← hlen, h]
        simp [List.enumFrom_length]

/-! ## DOM field values and stored JavaScript numbers

`App.validateScoreEntry` and `App.saveCurrentHoleScore` read raw strings
from DOM inputs.  A `RawField` abstracts such a string by the three
observations the code makes of it: whether its `trim()` is empty, whether
the raw string itself is falsy (i.e. empty), and the result of
`parseInt(value, 10)`.  The four constructors cover every JavaScript
string: `empty` is `""`; `blank` is a non-empty all-whitespace string
(truthy, trims to `""`, parses to `NaN`); `nan` is a non-empty string with
non-empty trim that does not parse; `num v` parses to the integer `v`. -/
inductive RawField where
  | empty
  | blank
  | nan
  | num (v : Int)
  deriving DecidableEq, Repr

/-- Result of `parseInt(value, 10)`: `none` models `NaN`. -/
def RawField.parsed : RawField → Option Int
  | .num v => some v
  | _ => none

/-- Whether `value.trim() === ''`. -/
def RawField.trimEmpty : RawField → Bool
  | .empty => true
  | .blank => true
  | _ => false

/-- Whether the raw string is falsy (`value ? _ : _` takes the else branch),
i.e. the string is `''`. -/
def RawField.rawEmpty : RawField → Bool
  | .empty => true
  | _ => false

/-- Result of `parseInt(value, 10) || d`: `NaN` and `0` both fall back to `d`. -/
def RawField.parsedOr (f : RawField) (d : Int) : Int :=
  match f.parsed with
  | none => d
  | some v => if v = 0 then d else v

/-- A JavaScript numeric cell as stored in a score record: `null`, `NaN`
(obtained by `parseInt` of a non-numeric non-empty string), or an integer. -/
inductive JVal where
  | null
  | nan
  | int (v : Int)
  deriving DecidableEq, Repr, Inhabited

/-- The filter `v !== null && !isNaN(v)` used throughout `Statistics`. -/
def JVal.toInt? : JVal → Option Int
  | .int v => some v
  | _ => none

/-- Result of `value ? parseInt(value, 10) : null` on a raw DOM string: an empty string
is stored as `null`; a truthy non-numeric string is stored as `NaN`. -/
def RawField.toJVal : RawField → JVal
  | .empty => .null
  | .blank => .nan
  | .nan => .nan
  | .num v => .int v

/-! ## Score-entry validation (`App.validateScoreEntry`, js/app.js) -/

/-- One structured validation error, as pushed onto the `errors` array. -/
structure ValError where
  field : String
  message : String
  deriving DecidableEq, Repr

/-- The `throws` checks: required, `parseInt` is not `NaN`, in `[1, 20]`.
(The trailing `!Number.isInteger(throws)` branch of the source is
unreachable, since `parseInt` returns an integer whenever it is not `NaN`.) -/
def validateThrows (t : RawField) : List ValError :=
  match t.parsed with
  | none => [⟨"throws", "Throws must be at least 1"⟩]
  | some v =>
      if v < 1 then [⟨"throws", "Throws must be at least 1"⟩]
      else if v > 20 then [⟨"throws", "Throws cannot exceed 20"⟩]
      else []

/-- The `approaches` checks: optional; if the trimmed string is non-empty it
must parse to an integer in `[0, 19]`. -/
def validateApproaches (a : RawField) : List ValError :=
  if a.trimEmpty then []
  else
    match a.parsed with
    | none => [⟨"approaches", "Approaches must be 0 or more"⟩]
    | some v =>
        if v < 0 then [⟨"approaches", "Approaches must be 0 or more"⟩]
        else if v > 19 then [⟨"approaches", "Approaches cannot exceed 19"⟩]
        else []

/-- The `putts` checks: optional; if the trimmed string is non-empty it must
parse to an integer in `[0, 19]`. -/
def validatePutts (p : RawField) : List ValError :=
  if p.trimEmpty then []
  else
    match p.parsed with
    | none => [⟨"putts", "Putts must be 0 or more"⟩]
    | some v =>
        if v < 0 then [⟨"putts", "Putts must be 0 or more"⟩]
        else if v > 19 then [⟨"putts", "Putts cannot exceed 19"⟩]
        else []

/-- Model of `App.validateScoreEntry`: collect the three field checks, then, only when
no field error was produced and both optional fields are present, run the
consistency check `approaches + putts <= throws - 1`.  (When any of the three
`parseInt` results is `NaN` the guard has already failed, matching the
source, where a `NaN` comparison would be false.) -/
def validateScoreEntry (t a p : RawField) : List ValError :=
  let errors := validateThrows t ++ validateApproaches a ++ validatePutts p
  if errors.isEmpty && !a.trimEmpty && !p.trimEmpty then
    match t.parsed, a.parsed, p.parsed with
    | some tv, some av, some pv =>
        if av + pv > tv - 1 then
          errors ++ [⟨"consistency",
            "Approaches + Putts cannot exceed throws - 1 (need at least 1 drive)"⟩]
        else errors
    | _, _, _ => errors
  else errors

/-! ## Round session state (`App.state`, js/app.js) -/

/-- A hole record of the current round (`round.holes[i]`). -/
structure Hole where
  hole_id : String
  course_id : String
  hole_number : Nat
  par : Int
  distance : JVal
  deriving DecidableEq, Repr, Inhabited

/-- A score record as built by `App.saveCurrentHoleScore`.  `throws` is
always an integer there (`parseInt(...) || 0`); the optional sub-values are
stored as JavaScript `null` / `NaN` / integer. -/
structure Score where
  score_id : String
  round_id : String
  hole_id : String
  hole_number : Nat
  throws : Int
  approaches : JVal
  putts : JVal
  created_at : String
  deriving DecidableEq, Repr, Inhabited

/-- The `state.currentRound` object during a round. `total_score` and
`total_par` are absent (`undefined`) until `finishRound` sets them. -/
structure Round where
  round_id : String
  course_id : String
  courseName : String
  round_date : String
  completed : Bool
  holes : List Hole
  scores : List Score
  isNewCourse : Bool
  currentHoleIndex : Nat
  holeCount : Nat
  total_score : Option Int
  total_par : Option Int
  deriving DecidableEq, Repr

/-- The slice of `App.state` driving the scoring state machine, together
with the snapshot persisted by `saveCurrentRoundState` (the
`Storage.saveCurrentRound` copy, `none` if never written). -/
structure AppState where
  currentRound : Round
  currentHoleIndex : Nat
  savedRound : Option Round
  deriving DecidableEq, Repr

/-- The DOM inputs read by the scoring screen: the three score fields plus
the per-hole setup fields used when the course is being created. -/
structure ScoreInputs where
  throws : RawField
  approaches : RawField
  putts : RawField
  setupPar : RawField
  setupDistance : RawField
  deriving DecidableEq, Repr

/-- Model of `Array.prototype.findIndex`: index of the first element satisfying the
predicate, `none` when there is no match. -/
def jsFindIndex {α : Type} (p : α → Bool) : List α → Option Nat
  | [] => none
  | x :: xs => if p x then some 0 else (jsFindIndex p xs).map (· + 1)

/-- The score record literal built by `App.saveCurrentHoleScore`:
`throws` is `parseInt(...) || 0`, the sub-values are
`value ? parseInt(value, 10) : null`. -/
def mkScoreData (freshId now : String) (round : Round) (hole : Hole)
    (holeIndex : Nat) (inp : ScoreInputs) : Score :=
  { score_id := freshId
    round_id := round.round_id
    hole_id := hole.hole_id
    hole_number := holeIndex + 1
    throws := inp.throws.parsedOr 0
    approaches := inp.approaches.toJVal
    putts := inp.putts.toJVal
    created_at := now }

/-- Model of `App.saveCurrentHoleScore`: optionally update the hole metadata (new
course only), then replace the existing score for the current hole number —
keeping its `score_id` — or append a new one. -/
def saveCurrentHoleScore (freshId now : String) (inp : ScoreInputs)
    (holeIndex : Nat) (round : Round) : Round :=
  let hole := round.holes.getD holeIndex default
  let hole :=
    if round.isNewCourse then
      { hole with
        par := inp.setupPar.parsedOr 3
        distance := if inp.setupDistance.rawEmpty then .null
          else (match inp.setupDistance.parsed with
            | some v => .int v
            | none => .nan) }
    else hole
  let holes :=
    if round.isNewCourse then round.holes.set holeIndex hole else round.holes
  let scoreData := mkScoreData freshId now round hole holeIndex inp
  match jsFindIndex (fun s => s.hole_number == holeIndex + 1) round.scores with
  | some i =>
      { round with
        holes := holes
        scores := round.scores.set i
          { scoreData with score_id := (round.scores.getD i default).score_id } }
  | none =>
      { round with holes := holes, scores := round.scores ++ [scoreData] }

/-- The throws/par totals computed by `Statistics.calculateRunningTotal`
(js/statistics.js) that `finishRound` consumes; `score.throws || 0` is the
identity on the integer `throws` stored by `saveCurrentHoleScore`, and a
score whose hole is not found contributes the default par 3. -/
def runningTotalScore (scores : List Score) : Int :=
  scores.foldl (fun acc s => acc + s.throws) 0

def runningTotalPar (scores : List Score) (holes : List Hole) : Int :=
  scores.foldl
    (fun acc s =>
      acc + (match holes.find? (fun h => h.hole_id == s.hole_id) with
        | some h => h.par
        | none => 3)) 0

/-- Model of `App.finishRound`: freeze the totals and mark the round completed (the
rendering side effects are external). -/
def finishRound (round : Round) : Round :=
  { round with
    total_score := some (runningTotalScore round.scores)
    total_par := some (runningTotalPar round.scores round.holes)
    completed := true }

/-- The tail of `App.navigateHole` after the forward-validation gate: save
the current hole, then move only if the target index is in range — an
out-of-range target is silently ignored (no error is surfaced and no
snapshot is written). -/
def navigateHoleCore (freshId now : String) (inp : ScoreInputs)
    (direction : Int) (st : AppState) : AppState × List ValError :=
  let round := saveCurrentHoleScore freshId now inp st.currentHoleIndex
    st.currentRound
  let newIndex : Int := (st.currentHoleIndex : Int) + direction
  if 0 ≤ newIndex ∧ newIndex < (round.holeCount : Int) then
    let idx := newIndex.toNat
    let round := { round with currentHoleIndex := idx }
    ({ currentRound := round, currentHoleIndex := idx, savedRound := some round },
      [])
  else
    ({ st with currentRound := round }, [])

/-- Model of `App.navigateHole`: forward navigation validates first and surfaces the
structured errors on failure; backward navigation skips validation
entirely. -/
def navigateHole (freshId now : String) (inp : ScoreInputs) (direction : Int)
    (st : AppState) : AppState × List ValError :=
  if direction > 0 then
    let errs := validateScoreEntry inp.throws inp.approaches inp.putts
    if errs.isEmpty then navigateHoleCore freshId now inp direction st
    else (st, errs)
  else navigateHoleCore freshId now inp direction st

/-- Model of `App.handleSaveHole`: validate; on failure surface the errors and leave
the state untouched; on success save the hole, then either finish the round
(last hole) or advance to the next hole, persisting the snapshot. -/
def handleSaveHole (freshId now : String) (inp : ScoreInputs)
    (st : AppState) : AppState × List ValError :=
  let errs := validateScoreEntry inp.throws inp.approaches inp.putts
  if errs.isEmpty then
    let round := saveCurrentHoleScore freshId now inp st.currentHoleIndex
      st.currentRound
    if (st.currentHoleIndex : Int) = (round.holeCount : Int) - 1 then
      let round := finishRound round
      ({ currentRound := round, currentHoleIndex := st.currentHoleIndex,
         savedRound := some round }, [])
    else
      let idx := st.currentHoleIndex + 1
      let round := { round with currentHoleIndex := idx }
      ({ currentRound := round, currentHoleIndex := idx,
         savedRound := some round }, [])
  else (st, errs)

/-! ## Concrete fixtures used by the witnesses -/

def hole1 : Hole := ⟨"hole-1", "course-1", 1, 3, .null⟩

def hole2 : Hole := ⟨"hole-2", "course-1", 2, 4, .null⟩

def sampleRound : Round :=
  { round_id := "round-1"
    course_id := "course-1"
    courseName := "Pine Valley"
    round_date := "2026-01-01T00:00:00.000Z"
    completed := false
    holes := [hole1, hole2]
    scores := []
    isNewCourse := false
    currentHoleIndex := 0
    holeCount := 2
    total_score := none
    total_par := none }

/-- A fresh scoring session positioned at the first hole. -/
def sampleState : AppState := ⟨sampleRound, 0, none⟩

/-- The same session positioned at the second hole. -/
def sampleStateAt1 : AppState :=
  ⟨{ sampleRound with currentHoleIndex := 1 }, 1, none⟩

def sampleInputs (t a p : RawField) : ScoreInputs := ⟨t, a, p, .empty, .empty⟩

/-! ## Validation and submission theorems -/

/-- C2: when validation fails, `handleSaveHole` writes nothing — scores,
hole index and persisted snapshot are all unchanged — and the caller
receives the structured error list. -/
theorem handleSaveHole_invalid_no_write (freshId now : String)
    (inp : ScoreInputs) (st : AppState)
    (h : validateScoreEntry inp.throws inp.approaches inp.putts ≠ []) :
    handleSaveHole freshId now inp st
      = (st, validateScoreEntry inp.throws inp.approaches inp.putts) := by
  unfold handleSaveHole
  have h' : (validateScoreEntry inp.throws inp.approaches inp.putts).isEmpty
      = false := by
    simpa [List.isEmpty_iff] using h
  simp [h']

/-- Witness for C2: an empty throws field yields a `throws` error and the
untouched initial state. -/
theorem handleSaveHole_invalid_no_write_witness :
    handleSaveHole "id-new" "2026-01-02T00:00:00.000Z"
        (sampleInputs .empty .empty .empty) sampleState
      = (sampleState, [⟨"throws", "Throws must be at least 1"⟩]) := by
  have h := handleSaveHole_invalid_no_write "id-new" "2026-01-02T00:00:00.000Z"
    (sampleInputs .empty .empty .empty) sampleState (by decide)
  exact h.trans (by decide)

/-- C3: for in-range field values with both sub-values present, validation
returns exactly one `consistency` error when
`approaches + putts > throws - 1`, and no error otherwise. -/
theorem validateScoreEntry_consistency (t a p : Int)
    (ht : 1 ≤ t ∧ t ≤ 20) (ha : 0 ≤ a ∧ a ≤ 19) (hp : 0 ≤ p ∧ p ≤ 19) :
    validateScoreEntry (.num t) (.num a) (.num p)
      = if a + p > t - 1 then
          [⟨"consistency",
            "Approaches + Putts cannot exceed throws - 1 (need at least 1 drive)"⟩]
        else [] := by
  obtain ⟨ht1, ht2⟩ := ht
  obtain ⟨ha1, ha2⟩ := ha
  obtain ⟨hp1, hp2⟩ := hp
  have hvt : validateThrows (.num t) = [] := by
    simp only [validateThrows, RawField.parsed]
    rw [if_neg (by omega), if_neg (by omega)]
  have hva : validateApproaches (.num a) = [] := by
    simp only [validateApproaches, RawField.trimEmpty, RawField.parsed,
      Bool.false_eq_true, if_false]
    rw [if_neg (by omega), if_neg (by omega)]
  have hvp : validatePutts (.num p) = [] := by
    simp only [validatePutts, RawField.trimEmpty, RawField.parsed,
      Bool.false_eq_true, if_false]
    rw [if_neg (by omega), if_neg (by omega)]
  unfold validateScoreEntry
  rw [hvt, hva, hvp]
  simp [RawField.trimEmpty, RawField.parsed]

/-- Witness for C3: `throws=3, approaches=2, putts=1` is rejected with the
single consistency error; `throws=4` with the same sub-values is accepted. -/
theorem validateScoreEntry_consistency_witness :
    validateScoreEntry (.num 3) (.num 2) (.num 1)
      = [⟨"consistency",
          "Approaches + Putts cannot exceed throws - 1 (need at least 1 drive)"⟩]
  ∧ validateScoreEntry (.num 4) (.num 2) (.num 1) = [] := by
  constructor
  · exact (validateScoreEntry_consistency 3 2 1 (by decide) (by decide)
      (by decide)).trans (by decide)
  · exact (validateScoreEntry_consistency 4 2 1 (by decide) (by decide)
      (by decide)).trans (by decide)

/-! ## Properties of `jsFindIndex` and `List.set` -/

theorem jsFindIndex_eq_none_iff {α : Type} (p : α → Bool) (l : List α) :
    jsFindIndex p l = none ↔ ∀ x ∈ l, p x = false := by
  induction l with
  | nil => simp [jsFindIndex]
  | cons x xs ih => by_cases h : p x <;> simp [jsFindIndex, h, ih]

theorem jsFindIndex_some {α : Type} (p : α → Bool) (l : List α) (i : Nat)
    (h : jsFindIndex p l = some i) :
    ∃ hi : i < l.length, p (l.get ⟨i, hi⟩) = true := by
  induction l generalizing i with
  | nil => simp [jsFindIndex] at h
  | cons x xs ih =>
      by_cases hx : p x = true
      · simp [jsFindIndex, hx] at h
        subst h
        exact ⟨by simp, by simpa using hx⟩
      · simp [jsFindIndex, hx] at h
        obtain ⟨j, hj, rfl⟩ := h
        obtain ⟨hlt, hp⟩ := ih j hj
        exact ⟨by simpa using Nat.succ_lt_succ hlt, by simpa using hp⟩

theorem map_set_self {α β : Type} (f : α → β) (l : List α) (i : Nat) (x : α)
    (hi : i < l.length) (hf : f x = f (l.get ⟨i, hi⟩)) :
    (l.set i x).map f = l.map f := by
  rw [List.map_set]
  apply List.ext_getElem
  · simp
  · intro n h1 h2
    rw [List.getElem_set]
    split
    · next heq =>
        subst heq
        rw [hf]
        simp [List.get_eq_getElem]
    · rfl

/-! ## Round-session invariants -/

theorem saveCurrentHoleScore_holeCount (freshId now : String)
    (inp : ScoreInputs) (holeIndex : Nat) (round : Round) :
    (saveCurrentHoleScore freshId now inp holeIndex round).holeCount
      = round.holeCount := by
  simp only [saveCurrentHoleScore]
  split <;> rfl

/-- C9: `saveCurrentHoleScore` preserves "at most one score per hole
number", and when a score for the current hole already exists it is replaced
in place — same list length, and every `score_id` (in particular the
replaced entry's) is preserved, so re-saving a hole never duplicates entries
or mints identifiers. -/
theorem saveCurrentHoleScore_unique_scores (freshId now : String)
    (inp : ScoreInputs) (holeIndex : Nat) (round : Round)
    (hnodup : (round.scores.map Score.hole_number).Nodup) :
    ((saveCurrentHoleScore freshId now inp holeIndex round).scores.map
        Score.hole_number).Nodup
  ∧ ((round.scores.any fun s => s.hole_number == holeIndex + 1) = true →
      (saveCurrentHoleScore freshId now inp holeIndex round).scores.length
          = round.scores.length
      ∧ (saveCurrentHoleScore freshId now inp holeIndex round).scores.map
            Score.score_id
          = round.scores.map Score.score_id) := by
  cases hf : jsFindIndex (fun s => s.hole_number == holeIndex + 1)
      round.scores with
  | none =>
      have hall := (jsFindIndex_eq_none_iff _ _).mp hf
      have hmem : (holeIndex + 1) ∉ round.scores.map Score.hole_number := by
        intro hmem
        obtain ⟨s, hs, hsn⟩ := List.mem_map.mp hmem
        have := hall s hs
        simp [hsn] at this
      constructor
      · simp only [saveCurrentHoleScore, mkScoreData, hf]
        rw [List.map_append]
        rw [List.nodup_append]
        refine ⟨hnodup, by simp, ?_⟩
        intro n hn hn1
        simp at hn1
        subst hn1
        exact hmem hn
      · intro hany
        obtain ⟨s, hs, hsp⟩ := List.any_eq_true.mp hany
        have := hall s hs
        simp [this] at hsp
  | some i =>
      obtain ⟨hi, hpi⟩ := jsFindIndex_some _ _ i hf
      have hpi' : round.scores[i].hole_number = holeIndex + 1 := by
        simpa [List.get_eq_getElem] using hpi
      refine ⟨?_, fun _ => ⟨?_, ?_⟩⟩
      · simp only [saveCurrentHoleScore, mkScoreData, hf]
        rw [map_set_self Score.hole_number round.scores i _ hi
          (by simp [List.get_eq_getElem, hpi'])]
        exact hnodup
      · simp only [saveCurrentHoleScore, mkScoreData, hf]
        exact List.length_set round.scores i _
      · simp only [saveCurrentHoleScore, mkScoreData, hf]
        rw [map_set_self Score.score_id round.scores i _ hi
          (by simp [List.getD, List.getElem?_eq_getElem hi,
            List.get_eq_getElem])]

/-- Witness for C9: saving hole 1 twice over an existing entry keeps one
entry with the original identifier. -/
theorem saveCurrentHoleScore_unique_scores_witness :
    ((({ sampleRound with
          scores := [⟨"score-1", "round-1", "hole-1", 1, 4, .null, .null,
            "2026-01-01T00:00:00.000Z"⟩] } : Round).scores.map
          Score.hole_number).Nodup
    ∧ ((saveCurrentHoleScore "id-x" "2026-01-02T00:00:00.000Z"
          (sampleInputs (.num 5) .empty .empty) 0
          { sampleRound with
            scores := [⟨"score-1", "round-1", "hole-1", 1, 4, .null, .null,
              "2026-01-01T00:00:00.000Z"⟩] }).scores.map
            Score.score_id = ["score-1"])) := by
  constructor
  · decide
  · have h := saveCurrentHoleScore_unique_scores "id-x"
      "2026-01-02T00:00:00.000Z" (sampleInputs (.num 5) .empty .empty) 0
      { sampleRound with
        scores := [⟨"score-1", "round-1", "hole-1", 1, 4, .null, .null,
          "2026-01-01T00:00:00.000Z"⟩] } (by decide)
    have h2 := (h.2 (by decide)).2
    rw [h2]
    decide

/-- C10: backward navigation performs no validation: whatever the raw
inputs, it returns no errors, persists the entered values as the score for
the active hole, moves back one hole and writes the snapshot — so values
rejected by the validation protocol can enter the scores list and the
persisted snapshot. -/
theorem navigateHole_back_persists_without_validation (freshId now : String)
    (inp : ScoreInputs) (st : AppState)
    (h1 : 1 ≤ st.currentHoleIndex)
    (h2 : (st.currentHoleIndex : Int) - 1 < (st.currentRound.holeCount : Int)) :
    navigateHole freshId now inp (-1) st
      = (⟨{ saveCurrentHoleScore freshId now inp st.currentHoleIndex
              st.currentRound with
            currentHoleIndex := st.currentHoleIndex - 1 },
          st.currentHoleIndex - 1,
          some { saveCurrentHoleScore freshId now inp st.currentHoleIndex
              st.currentRound with
            currentHoleIndex := st.currentHoleIndex - 1 }⟩, []) := by
  have hcount := saveCurrentHoleScore_holeCount freshId now inp
    st.currentHoleIndex st.currentRound
  unfold navigateHole
  rw [if_neg (by omega)]
  unfold navigateHoleCore
  rw [if_pos (by constructor <;> omega)]
  have htoNat : ((st.currentHoleIndex : Int) + -1).toNat
      = st.currentHoleIndex - 1 := by omega
  rw [htoNat]

/-- Witness for C10: with an empty throws field (which validation rejects),
navigating back from hole 2 still records a score of 0 for that hole and
surfaces no error. -/
theorem navigateHole_back_persists_without_validation_witness :
    validateScoreEntry RawField.empty RawField.empty RawField.empty ≠ []
  ∧ ((navigateHole "id-b" "2026-01-02T00:00:00.000Z"
        (sampleInputs .empty .empty .empty) (-1)
        sampleStateAt1).1.currentRound.scores.map Score.throws = [0])
  ∧ (navigateHole "id-b" "2026-01-02T00:00:00.000Z"
        (sampleInputs .empty .empty .empty) (-1) sampleStateAt1).2 = [] := by
  have h := navigateHole_back_persists_without_validation "id-b"
    "2026-01-02T00:00:00.000Z" (sampleInputs .empty .empty .empty)
    sampleStateAt1 (by decide) (by decide)
  refine ⟨by decide, ?_, ?_⟩
  · rw [h]
    decide
  · rw [h]

/-- C8 counterexample: at the first hole, navigating backward targets index
−1, which is out of range; the call surfaces no error and leaves the active
index unchanged — the invalid transition is silently absorbed, not failed
loudly. -/
theorem navigateHole_out_of_range_counterexample :
    (navigateHole "id-c" "2026-01-02T00:00:00.000Z"
        (sampleInputs (.num 3) .empty .empty) (-1) sampleState).2 = []
  ∧ (navigateHole "id-c" "2026-01-02T00:00:00.000Z"
        (sampleInputs (.num 3) .empty .empty) (-1)
        sampleState).1.currentHoleIndex = 0 := by
  exact ⟨rfl, rfl⟩

/-- C8 amended: when the target index is outside `[0, holeCount)` (and, for
forward moves, validation passed), `navigateHole` raises no error and leaves
the active index and snapshot unchanged; the only effect is that the current
inputs are still saved into the in-memory scores list before the bounds
check. -/
theorem navigateHole_out_of_range_absorbed (freshId now : String)
    (inp : ScoreInputs) (direction : Int) (st : AppState)
    (hval : 0 < direction →
      validateScoreEntry inp.throws inp.approaches inp.putts = [])
    (hout : ¬ (0 ≤ (st.currentHoleIndex : Int) + direction ∧
        (st.currentHoleIndex : Int) + direction
          < (st.currentRound.holeCount : Int))) :
    navigateHole freshId now inp direction st
      = ({ st with
            currentRound := saveCurrentHoleScore freshId now inp
              st.currentHoleIndex st.currentRound }, []) := by
  have hcount := saveCurrentHoleScore_holeCount freshId now inp
    st.currentHoleIndex st.currentRound
  have hcore : navigateHoleCore freshId now inp direction st
      = ({ st with
            currentRound := saveCurrentHoleScore freshId now inp
              st.currentHoleIndex st.currentRound }, []) := by
    unfold navigateHoleCore
    rw [if_neg (by rw [hcount]; exact hout)]
  unfold navigateHole
  by_cases hd : direction > 0
  · rw [if_pos hd]
    have hv : (validateScoreEntry inp.throws inp.approaches inp.putts).isEmpty
        = true := by
      rw [hval hd]
      rfl
    show (if (validateScoreEntry inp.throws inp.approaches
          inp.putts).isEmpty = true
        then navigateHoleCore freshId now inp direction st
        else (st, validateScoreEntry inp.throws inp.approaches inp.putts)) = _
    rw [if_pos hv]
    exact hcore
  · rw [if_neg hd]
    exact hcore

/-- Witness for the amended C8: the concrete out-of-range navigation of the
counterexample, through the amended theorem. -/
theorem navigateHole_out_of_range_absorbed_witness :
    navigateHole "id-c" "2026-01-03T00:00:00.000Z"
        (sampleInputs (.num 4) .empty .empty) (-1) sampleState
      = ({ sampleState with
            currentRound := saveCurrentHoleScore "id-c"
              "2026-01-03T00:00:00.000Z" (sampleInputs (.num 4) .empty .empty)
              0 sampleRound }, []) := by
  have h := navigateHole_out_of_range_absorbed "id-c"
    "2026-01-03T00:00:00.000Z" (sampleInputs (.num 4) .empty .empty) (-1)
    sampleState (by decide) (by decide)
  exact h.trans (by decide)

/-! ## Record Store (`Storage`, js/statistics.js)

`Storage.getAll` and `Storage.put` each branch on whether IndexedDB
initialization succeeded (`this.db`); the fallback path operates on the
parsed localStorage array for the collection.
-/

/-- Outcome of an IndexedDB request as observed through the `onsuccess` /
`onerror` callbacks the store installs: success with `request.result`
(possibly null — the code guards with `|| []`), or a request error. -/
inductive IdbResult (α : Type) where
  | success (result : Option (List α))
  | error
  deriving DecidableEq, Repr

/-- Storage state visible to `Storage.getAll`: `db` is `none` when IndexedDB
initialization failed (localStorage-only mode); otherwise it gives the
behavior of a `getAll` request per store name.  `localData` is the parsed
localStorage content per collection (`none` models an absent key or a failed
`getItem`/`JSON.parse`, both of which `Storage.get` turns into `null`). -/
structure StorageState (α : Type) where
  db : Option (String → IdbResult α)
  localData : String → Option (List α)

/-- Model of `Storage.getAll`: on the fallback path, `this.get(key) || []`; on the
IndexedDB path, `resolve(request.result || [])` on success and `resolve([])`
on request error. -/
def getAll {α : Type} (st : StorageState α) (storeName : String) : List α :=
  match st.db with
  | none => (st.localData storeName).getD []
  | some stores =>
      match stores storeName with
      | .success r => r.getD []
      | .error => []

/-- The situations the claim ranges over: the collection is absent (parsed
localStorage yields null / the request resolves with a null result) or the
backend operation fails (get error on the fallback path, request error on
the IndexedDB path). -/
def getAllFailed {α : Type} (st : StorageState α) (name : String) : Prop :=
  match st.db with
  | none => st.localData name = none
  | some stores => stores name = .error ∨ stores name = .success none

/-- C5: `getAll` is a total function of the observed backend state — it
resolves rather than throwing — and an absent collection or a failed backend
operation yields the empty list, so callers see storage failure only as
"no data". -/
theorem getAll_absorbs_failure {α : Type} (st : StorageState α)
    (name : String) (h : getAllFailed st name) : getAll st name = [] := by
  obtain ⟨db, localData⟩ := st
  cases db with
  | none =>
      have h' : localData name = none := h
      simp [getAll, h']
  | some stores =>
      have h' : stores name = IdbResult.error
          ∨ stores name = IdbResult.success none := h
      rcases h' with h' | h' <;> simp [getAll, h']

/-- Witness for C5: both a failed IndexedDB request and an absent
localStorage key produce the empty list. -/
theorem getAll_absorbs_failure_witness :
    getAll (⟨some fun _ => .error, fun _ => none⟩ : StorageState Nat) "scores"
        = []
  ∧ getAll (⟨none, fun _ => none⟩ : StorageState Nat) "scores" = [] :=
  ⟨getAll_absorbs_failure _ "scores" (Or.inl rfl),
   getAll_absorbs_failure _ "scores" rfl⟩

/-- Model of `Storage.put` on the localStorage fallback path: find the first record
whose key field (`<singular>_id`, abstracted as `keyOf`) matches the new
record's, replace it there, else push the record at the end. -/
def put {α : Type} (keyOf : α → String) (items : List α) (item : α) :
    List α :=
  match jsFindIndex (fun i => keyOf i == keyOf item) items with
  | some idx => items.set idx item
  | none => items ++ [item]

theorem jsFindIndex_set_of_found {α : Type} (p : α → Bool) (l : List α)
    (idx : Nat) (x : α) (hf : jsFindIndex p l = some idx) (hx : p x = true) :
    jsFindIndex p (l.set idx x) = some idx := by
  induction l generalizing idx with
  | nil => simp [jsFindIndex] at hf
  | cons y ys ih =>
      by_cases hy : p y = true
      · simp [jsFindIndex, hy] at hf
        subst hf
        simp [List.set, jsFindIndex, hx]
      · simp [jsFindIndex, hy] at hf
        obtain ⟨j, hj, rfl⟩ := hf
        simp [List.set, jsFindIndex, hy, ih j hj]

theorem jsFindIndex_append_singleton {α : Type} (p : α → Bool) (l : List α)
    (x : α) (hall : ∀ y ∈ l, p y = false) (hx : p x = true) :
    jsFindIndex p (l ++ [x]) = some l.length := by
  induction l with
  | nil => simp [jsFindIndex, hx]
  | cons y ys ih =>
      have hy := hall y (by simp)
      have htail : ∀ z ∈ ys, p z = false := fun z hz => hall z (by simp [hz])
      simp [jsFindIndex, hy, ih htail]

theorem set_get_self {α : Type} (l : List α) (i : Nat) (hi : i < l.length) :
    l.set i (l.get ⟨i, hi⟩) = l := by
  apply List.ext_getElem
  · simp
  · intro n h1 h2
    rw [List.getElem_set]
    split
    · next heq =>
        subst heq
        rw [List.get_eq_getElem]
    · rfl

/-- C6: `put` is an idempotent upsert: repeating the same `put` leaves the
store unchanged, and putting a record whose key already occurs replaces in
place — the collection keeps its length instead of gaining a duplicate. -/
theorem put_idempotent_upsert {α : Type} (keyOf : α → String)
    (items : List α) (item : α) :
    put keyOf (put keyOf items item) item = put keyOf items item
  ∧ ((items.any fun i => keyOf i == keyOf item) = true →
      (put keyOf items item).length = items.length) := by
  have hself : (keyOf item == keyOf item) = true := by simp
  cases hf : jsFindIndex (fun i => keyOf i == keyOf item) items with
  | none =>
      have hall := (jsFindIndex_eq_none_iff _ _).mp hf
      have h1 : put keyOf items item = items ++ [item] := by
        unfold put
        rw [hf]
      have h2 : jsFindIndex (fun i => keyOf i == keyOf item)
          (items ++ [item]) = some items.length :=
        jsFindIndex_append_singleton _ _ _ hall hself
      constructor
      · rw [h1]
        unfold put
        rw [h2]
        show (items ++ [item]).set items.length item = items ++ [item]
        apply List.ext_getElem
        · simp
        · intro n hn1 hn2
          rw [List.getElem_set]
          split
          · next heq =>
              subst heq
              rw [List.getElem_concat_length _ _ _ rfl]
          · rfl
      · intro hany
        obtain ⟨s, hs, hsp⟩ := List.any_eq_true.mp hany
        have := hall s hs
        simp [this] at hsp
  | some idx =>
      have h1 : put keyOf items item = items.set idx item := by
        unfold put
        rw [hf]
      have h2 : jsFindIndex (fun i => keyOf i == keyOf item)
          (items.set idx item) = some idx :=
        jsFindIndex_set_of_found _ _ _ _ hf hself
      constructor
      · rw [h1]
        unfold put
        rw [h2]
        show (items.set idx item).set idx item = items.set idx item
        rw [List.set_set]
      · intro _
        rw [h1]
        exact List.length_set items idx item

/-- Witness for C6: upserting a record with an existing key keeps two
records, replaces the payload, and a second identical `put` changes
nothing. -/
theorem put_idempotent_upsert_witness :
    ((["a", "b"].map (fun s => (s, 0))).any
        fun i => Prod.fst i == "a") = true
  ∧ put Prod.fst (put Prod.fst [("a", 0), ("b", 0)] ("a", 9)) ("a", 9)
      = put Prod.fst [("a", 0), ("b", 0)] ("a", 9)
  ∧ (put Prod.fst [("a", 0), ("b", 0)] ("a", 9)).length = 2 := by
  have h := put_idempotent_upsert Prod.fst [("a", 0), ("b", 0)] ("a", 9)
  refine ⟨by decide, h.1, ?_⟩
  have h2 := h.2 (by decide)
  simpa using h2

/-! ## Statistics engine (`Statistics.calculateHoleStats`, js/statistics.js) -/

/-- Value of `CONFIG.statistics.minRoundsForAverage` (js/config.js). -/
def CONFIG_minRoundsForAverage : Nat := 1

/-- Value of `CONFIG.statistics.minDataPointsForDetailedStats` (js/config.js). -/
def CONFIG_minDataPointsForDetailedStats : Nat := 3

/-- Model of `Math.round`: round half toward positive infinity. -/
def jsRound (x : Rat) : Int := ⌊x + 1 / 2⌋

/-- Model of `Utils.roundTo(num, 1)` (js/utils.js): `Math.round(num * 10) / 10`. -/
def roundTo1 (x : Rat) : Rat := (jsRound (x * 10) : Rat) / 10

/-- Model of `Utils.average` (js/utils.js): `null` on an empty array; drop
null/`NaN` entries; `null` when no valid entry remains; otherwise the exact
mean of the valid values. -/
def average (numbers : List JVal) : Option Rat :=
  if numbers.isEmpty then none
  else
    let valid := numbers.filterMap JVal.toInt?
    if valid.isEmpty then none
    else some ((valid.sum : Rat) / (valid.length : Rat))

/-- A historical score record as consumed by `Statistics`: loaded from
storage, its numeric fields can be `null` or `NaN` as well as integers. -/
structure StatScore where
  hole_id : String
  throws : JVal
  approaches : JVal
  putts : JVal
  deriving DecidableEq, Repr

/-- The object returned by `Statistics.calculateHoleStats`.  (In the
empty-scores early return the source omits the two `hasEnough…` fields,
i.e. they are `undefined`; the embedding models them as `false`, which is
how the rendering code treats them.) -/
structure HoleStats where
  hasData : Bool
  roundCount : Nat
  avgScore : Option Rat
  avgApproaches : Option Rat
  avgPutts : Option Rat
  hasEnoughApproachData : Bool
  hasEnoughPuttData : Bool
  deriving DecidableEq, Repr

/-- Model of `Statistics.calculateHoleStats`: filter the score history to this hole,
collect the valid (non-null, non-`NaN`) values of each field, and expose
each average only past its configured minimum count — 1 valid entry for
throws, 3 carrying entries for each sub-value. -/
def calculateHoleStats (holeId : String) (scores : List StatScore) :
    HoleStats :=
  let holeScores := scores.filter fun s => s.hole_id == holeId
  if holeScores.isEmpty then
    { hasData := false
      roundCount := 0
      avgScore := none
      avgApproaches := none
      avgPutts := none
      hasEnoughApproachData := false
      hasEnoughPuttData := false }
  else
    let throwsValues := (holeScores.map StatScore.throws).filterMap JVal.toInt?
    let approachesValues :=
      (holeScores.map StatScore.approaches).filterMap JVal.toInt?
    let puttsValues := (holeScores.map StatScore.putts).filterMap JVal.toInt?
    let minRounds := CONFIG_minDataPointsForDetailedStats
    { hasData := decide (CONFIG_minRoundsForAverage ≤ throwsValues.length)
      roundCount := throwsValues.length
      avgScore :=
        if 0 < throwsValues.length then
          (average (throwsValues.map JVal.int)).map roundTo1
        else none
      avgApproaches :=
        if minRounds ≤ approachesValues.length then
          (average (approachesValues.map JVal.int)).map roundTo1
        else none
      avgPutts :=
        if minRounds ≤ puttsValues.length then
          (average (puttsValues.map JVal.int)).map roundTo1
        else none
      hasEnoughApproachData := decide (minRounds ≤ approachesValues.length)
      hasEnoughPuttData := decide (minRounds ≤ puttsValues.length) }

/-- The valid (non-null, non-`NaN`) values of one field over the score
history of one hole — the `throwsValues`/`approachesValues`/`puttsValues`
arrays of `calculateHoleStats`. -/
def holeFieldValues (field : StatScore → JVal) (holeId : String)
    (scores : List StatScore) : List Int :=
  ((scores.filter fun s => s.hole_id == holeId).map field).filterMap
    JVal.toInt?

theorem average_map_int_isSome (l : List Int) :
    (average (l.map JVal.int)).isSome = !l.isEmpty := by
  unfold average
  rw [List.filterMap_map]
  have hcomp : (JVal.toInt? ∘ JVal.int) = some := rfl
  rw [hcomp]
  cases l <;> simp

theorem isSome_average_gate (c : Prop) [Decidable c] (l : List Int)
    (hcl : c → l ≠ []) :
    (if c then (average (l.map JVal.int)).map roundTo1 else none).isSome
        = true ↔ c := by
  by_cases hc : c
  · rw [if_pos hc]
    simp [average_map_int_isSome, hcl hc, hc]
  · rw [if_neg hc]
    simp [hc]

theorem calculateHoleStats_avg_eq (holeId : String) (scores : List StatScore)
    (h : ¬ ((scores.filter fun s => s.hole_id == holeId).isEmpty = true)) :
    (calculateHoleStats holeId scores).avgScore
        = (if 0 < (holeFieldValues StatScore.throws holeId scores).length then
            (average ((holeFieldValues StatScore.throws holeId
              scores).map JVal.int)).map roundTo1
          else none)
  ∧ (calculateHoleStats holeId scores).avgApproaches
        = (if CONFIG_minDataPointsForDetailedStats ≤
              (holeFieldValues StatScore.approaches holeId scores).length then
            (average ((holeFieldValues StatScore.approaches holeId
              scores).map JVal.int)).map roundTo1
          else none)
  ∧ (calculateHoleStats holeId scores).avgPutts
        = (if CONFIG_minDataPointsForDetailedStats ≤
              (holeFieldValues StatScore.putts holeId scores).length then
            (average ((holeFieldValues StatScore.putts holeId
              scores).map JVal.int)).map roundTo1
          else none) := by
  simp only [calculateHoleStats]
  rw [if_neg h]
  exact ⟨rfl, rfl, rfl⟩

/-- C7: a sub-value average is exposed (non-null) exactly when at least 3
entries for the hole carry a valid value of that sub-value — regardless of
how many entries the hole has in total — while the throws average is exposed
as soon as 1 entry carries a valid throws value. -/
theorem calculateHoleStats_gating (holeId : String) (scores : List StatScore) :
    ((calculateHoleStats holeId scores).avgScore.isSome = true ↔
      1 ≤ (holeFieldValues StatScore.throws holeId scores).length)
  ∧ ((calculateHoleStats holeId scores).avgApproaches.isSome = true ↔
      CONFIG_minDataPointsForDetailedStats ≤
        (holeFieldValues StatScore.approaches holeId scores).length)
  ∧ ((calculateHoleStats holeId scores).avgPutts.isSome = true ↔
      CONFIG_minDataPointsForDetailedStats ≤
        (holeFieldValues StatScore.putts holeId scores).length) := by
  by_cases hemp : ((scores.filter fun s => s.hole_id == holeId).isEmpty = true)
  · have h0 : (scores.filter fun s => s.hole_id == holeId) = [] :=
      List.isEmpty_iff.mp hemp
    have hv : ∀ f : StatScore → JVal, holeFieldValues f holeId scores = [] := by
      intro f
      unfold holeFieldValues
      rw [h0]
      rfl
    have hc : calculateHoleStats holeId scores
        = { hasData := false, roundCount := 0, avgScore := none,
            avgApproaches := none, avgPutts := none,
            hasEnoughApproachData := false, hasEnoughPuttData := false } := by
      simp only [calculateHoleStats]
      rw [if_pos hemp]
    rw [hc, hv StatScore.throws, hv StatScore.approaches, hv StatScore.putts]
    simp [CONFIG_minDataPointsForDetailedStats]
  · obtain ⟨e1, e2, e3⟩ := calculateHoleStats_avg_eq holeId scores hemp
    rw [e1, e2, e3]
    refine ⟨?_, ?_, ?_⟩
    · rw [isSome_average_gate _ _ (fun hc => List.ne_nil_of_length_pos hc)]
      omega
    · rw [isSome_average_gate _ _ (fun hc => List.ne_nil_of_length_pos (by
        simp only [CONFIG_minDataPointsForDetailedStats] at hc
        omega))]
    · rw [isSome_average_gate _ _ (fun hc => List.ne_nil_of_length_pos (by
        simp only [CONFIG_minDataPointsForDetailedStats] at hc
        omega))]

end DiscGolf
